import Mathlib

/-!
Verification development for the Stock-Assistant agent
(src/src/agent/agent.py).

The program orchestrates LLM calls and external tool invocations with a
LangGraph state graph.  We give a shallow embedding of its orchestration
logic:

* a model response is a record of text content and a list of tool-call
  requests (the shape returned by llms_with_tools.ainvoke);
* the model itself is externalized: every loop is run against a canned
  list of responses, the n-th list element standing for the reply the
  model gives to the n-th invocation of that loop.  An exhausted list
  models a model-invocation failure (exceptions propagate as none);
* a LangGraph node is embedded as a function from the current state and
  the model response to the partial state update (the dict the Python
  node returns); the add_messages reducer appends the update messages
  and a scalar key overwrites exactly when the update carries it;
* the graph wiring (conditional edges with tools_condition, the ToolNode,
  and the edge back to the model node) is embedded as a recursive runner
  per subgraph, instrumented with the number of model invocations, the
  number of tool-execution rounds, and the number of writes to the
  output field of the loop.
-/

/-- A tool-call request emitted inside a model response
(a name plus an argument payload). -/
structure ToolCall where
  name : String
  args : String
deriving DecidableEq, Repr

/-- A model response: text content plus the list of tool calls it
requests.  AIMessage objects always carry a tool_calls attribute, so the
Python guard (not hasattr or len == 0) is exactly tool_calls = []. -/
structure Response where
  content : String
  tool_calls : List ToolCall
deriving DecidableEq, Repr

/-- A conversation message.  system and user messages are built when a
prompt is assembled; assistant messages wrap a model response; tool
messages wrap a tool result string. -/
inductive Message where
  | system (content : String)
  | user (content : String)
  | assistant (response : Response)
  | tool (result : String)
deriving DecidableEq, Repr

/-- The result messages a ToolNode produces for one model response: one
tool message per requested call, in request order, with toolExec standing
for the external tool backend. -/
def toolResults (toolExec : ToolCall → String) (response : Response) : List Message :=
  response.tool_calls.map fun tc => Message.tool (toolExec tc)

/-- Instrumented outcome of running one tool loop: final state, number of
model invocations, number of tool-execution rounds, and number of writes
to the output field of that loop. -/
structure LoopResult (σ : Type) where
  state : σ
  modelCalls : Nat
  toolRounds : Nat
  outputWrites : Nat
deriving DecidableEq, Repr

/-- The messages appended to a loop state by the non-terminal iterations
that consume the given responses: for each response, the assistant
message followed by all of its tool results. -/
def loopTranscript (toolExec : ToolCall → String) : List Response → List Message
  | [] => []
  | r :: rs =>
      Message.assistant r :: (toolResults toolExec r ++ loopTranscript toolExec rs)

/-- Total number of tool calls requested across a list of responses. -/
def totalToolCalls (rs : List Response) : Nat :=
  (rs.map fun r => r.tool_calls.length).sum

/-! ## System prompts (agent.py lines 15 to 34) -/

def FUNDAMENTAL_ANALYSIS_SYSTEM_PROMPT : String :=
  "Perform a fundamental analysis of the stock. Provide a detailed analysis including financial ratios, earnings reports, and other relevant information. Use the ask perplexity tool to search for the fundamental analysis."

def TECHNICAL_ANALYSIS_SYSTEM_PROMPT : String :=
  "Perform a technical analysis of the stock. Analyze charts, trends, and technical indicators. Use the ask perplexity tool to search for technical analysis."

def STOCK_NAME_SYSTEM_PROMPT : String :=
  "Get the name of the stock to analyze. Only return the name in the format 'Company Name (Ticker)'. Eg: 'Tata Motors Ltd. (NSE:TATAMOTORS)' and nothing else. Only fetch the ticker symbol for NSE. Use the ask perplexity tool to search for the stock ticker."

/-! ## Fundamental analysis subgraph (agent.py lines 66 to 99) -/

/-- FundamentalAnalysisState (agent.py lines 66 to 69); the output key is
absent until the node sets it, hence Option. -/
structure FundamentalAnalysisState where
  stock_name : String
  messages : List Message
  fundamental_analysis : Option String
deriving DecidableEq, Repr

/-- The partial state update returned by the fundamental analysis node:
the dict keys it provides.  fundamental_analysis = none means the key is
absent from the returned dict. -/
structure FundamentalUpdate where
  fundamental_analysis : Option String
  messages : List Message
deriving DecidableEq, Repr

/-- The message list passed to the model by get_fundamental_analysis
(agent.py lines 72 to 76): system prompt and contextual user message are
freshly prepended to the accumulated messages. -/
def fundamental_messages_with_prompt (state : FundamentalAnalysisState) : List Message :=
  Message.system FUNDAMENTAL_ANALYSIS_SYSTEM_PROMPT ::
  Message.user ("The stock to analyze is " ++ state.stock_name) ::
  state.messages

/-- get_fundamental_analysis (agent.py lines 71 to 84), given the model
response to fundamental_messages_with_prompt state.  The state argument
enters only the model input, not the returned update. -/
def get_fundamental_analysis (_state : FundamentalAnalysisState) (response : Response) :
    FundamentalUpdate :=
  if response.tool_calls = [] then
    { fundamental_analysis := some response.content
      messages := [Message.assistant response] }
  else
    { fundamental_analysis := none
      messages := [Message.assistant response] }

/-- Application of a node update to the subgraph state: add_messages
appends, the scalar key overwrites exactly when the update carries it. -/
def applyFUpdate (state : FundamentalAnalysisState) (u : FundamentalUpdate) :
    FundamentalAnalysisState :=
  { stock_name := state.stock_name
    messages := state.messages ++ u.messages
    fundamental_analysis :=
      match u.fundamental_analysis with
      | some v => some v
      | none => state.fundamental_analysis }

/-- Execution of the compiled fundamental subgraph (agent.py lines 86 to
99) against a canned response list: START goes to the node; the
conditional edge with tools_condition sends a response with tool calls to
the ToolNode and then back, and a tool-free response to END. -/
def fsubgraph_run (toolExec : ToolCall → String) :
    FundamentalAnalysisState → List Response →
    Option (LoopResult FundamentalAnalysisState)
  | _, [] => none
  | state, response :: rs =>
      let update := get_fundamental_analysis state response
      let state1 := applyFUpdate state update
      let wrote := if update.fundamental_analysis.isSome then 1 else 0
      if response.tool_calls = [] then
        some ⟨state1, 1, 0, wrote⟩
      else
        match fsubgraph_run toolExec
            (applyFUpdate state1 ⟨none, toolResults toolExec response⟩) rs with
        | none => none
        | some res =>
            some ⟨res.state, res.modelCalls + 1, res.toolRounds + 1,
                  res.outputWrites + wrote⟩

/-- Full characterization of a fundamental subgraph run whose first N
responses request tools and whose next response is tool-free: the final
messages, the output field, and all three counters. -/
theorem fsubgraph_run_eq (toolExec : ToolCall → String) (front : List Response)
    (last : Response) (rest : List Response) (s0 : FundamentalAnalysisState)
    (hf : ∀ r ∈ front, r.tool_calls ≠ []) (hl : last.tool_calls = []) :
    fsubgraph_run toolExec s0 (front ++ last :: rest) =
      some ⟨⟨s0.stock_name,
             s0.messages ++ (loopTranscript toolExec front ++ [Message.assistant last]),
             some last.content⟩,
            front.length + 1, front.length, 1⟩ := by
  induction front generalizing s0 with
  | nil =>
      simp [fsubgraph_run, get_fundamental_analysis, applyFUpdate, hl, loopTranscript]
  | cons r front ih =>
      have hr : r.tool_calls ≠ [] := hf r (List.mem_cons_self r front)
      have hfront : ∀ x ∈ front, x.tool_calls ≠ [] :=
        fun x hx => hf x (List.mem_cons_of_mem r hx)
      simp only [List.cons_append, fsubgraph_run, get_fundamental_analysis, if_neg hr,
        applyFUpdate, List.append_eq]
      rw [ih _ hfront]
      simp [loopTranscript, List.append_assoc]

/-! ## Technical analysis subgraph (agent.py lines 102 to 135) -/

/-- TechnicalAnalysisState (agent.py lines 102 to 105). -/
structure TechnicalAnalysisState where
  stock_name : String
  messages : List Message
  technical_analysis : Option String
deriving DecidableEq, Repr

/-- The partial state update returned by the technical analysis node. -/
structure TechnicalUpdate where
  technical_analysis : Option String
  messages : List Message
deriving DecidableEq, Repr

/-- The message list passed to the model by get_technical_analysis
(agent.py lines 108 to 112). -/
def technical_messages_with_prompt (state : TechnicalAnalysisState) : List Message :=
  Message.system TECHNICAL_ANALYSIS_SYSTEM_PROMPT ::
  Message.user ("The stock to analyze is " ++ state.stock_name) ::
  state.messages

/-- get_technical_analysis (agent.py lines 107 to 120), given the model
response to technical_messages_with_prompt state. -/
def get_technical_analysis (_state : TechnicalAnalysisState) (response : Response) :
    TechnicalUpdate :=
  if response.tool_calls = [] then
    { technical_analysis := some response.content
      messages := [Message.assistant response] }
  else
    { technical_analysis := none
      messages := [Message.assistant response] }

/-- Application of a node update to the technical subgraph state. -/
def applyTUpdate (state : TechnicalAnalysisState) (u : TechnicalUpdate) :
    TechnicalAnalysisState :=
  { stock_name := state.stock_name
    messages := state.messages ++ u.messages
    technical_analysis :=
      match u.technical_analysis with
      | some v => some v
      | none => state.technical_analysis }

/-- Execution of the compiled technical subgraph (agent.py lines 122 to
135) against a canned response list. -/
def tsubgraph_run (toolExec : ToolCall → String) :
    TechnicalAnalysisState → List Response →
    Option (LoopResult TechnicalAnalysisState)
  | _, [] => none
  | state, response :: rs =>
      let update := get_technical_analysis state response
      let state1 := applyTUpdate state update
      let wrote := if update.technical_analysis.isSome then 1 else 0
      if response.tool_calls = [] then
        some ⟨state1, 1, 0, wrote⟩
      else
        match tsubgraph_run toolExec
            (applyTUpdate state1 ⟨none, toolResults toolExec response⟩) rs with
        | none => none
        | some res =>
            some ⟨res.state, res.modelCalls + 1, res.toolRounds + 1,
                  res.outputWrites + wrote⟩

/-- Full characterization of a technical subgraph run whose first N
responses request tools and whose next response is tool-free. -/
theorem tsubgraph_run_eq (toolExec : ToolCall → String) (front : List Response)
    (last : Response) (rest : List Response) (s0 : TechnicalAnalysisState)
    (hf : ∀ r ∈ front, r.tool_calls ≠ []) (hl : last.tool_calls = []) :
    tsubgraph_run toolExec s0 (front ++ last :: rest) =
      some ⟨⟨s0.stock_name,
             s0.messages ++ (loopTranscript toolExec front ++ [Message.assistant last]),
             some last.content⟩,
            front.length + 1, front.length, 1⟩ := by
  induction front generalizing s0 with
  | nil =>
      simp [tsubgraph_run, get_technical_analysis, applyTUpdate, hl, loopTranscript]
  | cons r front ih =>
      have hr : r.tool_calls ≠ [] := hf r (List.mem_cons_self r front)
      have hfront : ∀ x ∈ front, x.tool_calls ≠ [] :=
        fun x hx => hf x (List.mem_cons_of_mem r hx)
      simp only [List.cons_append, tsubgraph_run, get_technical_analysis, if_neg hr,
        applyTUpdate, List.append_eq]
      rw [ih _ hfront]
      simp [loopTranscript, List.append_assoc]

/-! ## Top-level state and name resolution (agent.py lines 138 to 159) -/

/-- State (agent.py lines 138 to 143).  Every key may be absent before
some node writes it, hence Option everywhere except messages, which the
add_messages reducer defaults to the empty list.  The decision key is
declared Literal buy, sell, hold in the source but nothing enforces the
enumeration, so its value is an arbitrary string. -/
structure State where
  messages : List Message
  stock_name : Option String
  fundamental_analysis : Option String
  technical_analysis : Option String
  decision : Option String
deriving DecidableEq, Repr

/-- The partial state update returned by the stock name node. -/
structure StockNameUpdate where
  stock_name : Option String
  messages : List Message
deriving DecidableEq, Repr

/-- The message list passed to the model by get_stock_name (agent.py
lines 147 to 150): only the system prompt is prepended, there is no
contextual user message in this loop. -/
def stock_name_messages_with_prompt (state : State) : List Message :=
  Message.system STOCK_NAME_SYSTEM_PROMPT :: state.messages

/-- get_stock_name (agent.py lines 146 to 159), given the model response
to stock_name_messages_with_prompt state. -/
def get_stock_name (_state : State) (response : Response) : StockNameUpdate :=
  if response.tool_calls = [] then
    { stock_name := some response.content
      messages := [Message.assistant response] }
  else
    { stock_name := none
      messages := [Message.assistant response] }

/-- Application of a stock name node update to the top-level state. -/
def applySUpdate (state : State) (u : StockNameUpdate) : State :=
  { state with
    messages := state.messages ++ u.messages
    stock_name :=
      match u.stock_name with
      | some v => some v
      | none => state.stock_name }

/-- Execution of the stock name tool loop of the top-level graph
(agent.py lines 185 to 200: the stock_name node, its ToolNode, and the
conditional edge) against a canned response list.  The terminal edge goes
to continue_to_analyses instead of END, which stock_graph_run below
composes. -/
def stock_name_run (toolExec : ToolCall → String) :
    State → List Response → Option (LoopResult State)
  | _, [] => none
  | state, response :: rs =>
      let update := get_stock_name state response
      let state1 := applySUpdate state update
      let wrote := if update.stock_name.isSome then 1 else 0
      if response.tool_calls = [] then
        some ⟨state1, 1, 0, wrote⟩
      else
        match stock_name_run toolExec
            (applySUpdate state1 ⟨none, toolResults toolExec response⟩) rs with
        | none => none
        | some res =>
            some ⟨res.state, res.modelCalls + 1, res.toolRounds + 1,
                  res.outputWrites + wrote⟩

/-- Full characterization of a stock name loop run whose first N
responses request tools and whose next response is tool-free. -/
theorem stock_name_run_eq (toolExec : ToolCall → String) (front : List Response)
    (last : Response) (rest : List Response) (s0 : State)
    (hf : ∀ r ∈ front, r.tool_calls ≠ []) (hl : last.tool_calls = []) :
    stock_name_run toolExec s0 (front ++ last :: rest) =
      some ⟨{ s0 with
              messages := s0.messages ++ (loopTranscript toolExec front ++ [Message.assistant last])
              stock_name := some last.content },
            front.length + 1, front.length, 1⟩ := by
  induction front generalizing s0 with
  | nil =>
      simp [stock_name_run, get_stock_name, applySUpdate, hl, loopTranscript]
  | cons r front ih =>
      have hr : r.tool_calls ≠ [] := hf r (List.mem_cons_self r front)
      have hfront : ∀ x ∈ front, x.tool_calls ≠ [] :=
        fun x hx => hf x (List.mem_cons_of_mem r hx)
      simp only [List.cons_append, stock_name_run, get_stock_name, if_neg hr,
        applySUpdate, List.append_eq]
      rw [ih _ hfront]
      simp [loopTranscript, List.append_assoc]

/-! ## Aggregator (agent.py lines 161 to 170) -/

/-- Which of the two concurrently launched analysis branches physically
completes first.  asyncio.gather awaits both tasks and returns their
results in argument order whatever the completion order, which this
parameter makes explicit. -/
inductive Branch where
  | fundamental
  | technical
deriving DecidableEq, Repr

/-- Semantics of asyncio.gather on two tasks: both results, in argument
order, for either completion order. -/
def asyncio_gather {α β : Type} (order : Branch) (f : α) (t : β) : α × β :=
  match order with
  | Branch.fundamental => (f, t)
  | Branch.technical => (f, t)

/-- continue_to_analyses (agent.py lines 161 to 170), with the two
subgraphs run against their canned response lists.  Each subgraph is
seeded with only the resolved stock name (messages default to empty).
An absent stock_name key, an errored branch, or a branch result lacking
its analysis key raises, which propagates as none.  The returned update
is applied to the incoming state: add_messages appends the concatenated
branch histories (fundamental first, then technical) and the two
analysis keys are overwritten. -/
def continue_to_analyses (toolExec : ToolCall → String)
    (fResponses tResponses : List Response) (order : Branch) (state : State) :
    Option State :=
  match state.stock_name with
  | none => none
  | some sn =>
      let fundamental_task := fsubgraph_run toolExec ⟨sn, [], none⟩ fResponses
      let technical_task := tsubgraph_run toolExec ⟨sn, [], none⟩ tResponses
      match asyncio_gather order fundamental_task technical_task with
      | (some fundamental_result, some technical_result) =>
          match fundamental_result.state.fundamental_analysis,
                technical_result.state.technical_analysis with
          | some fa, some ta =>
              some { state with
                     fundamental_analysis := some fa
                     technical_analysis := some ta
                     messages := state.messages ++
                       (fundamental_result.state.messages ++
                        technical_result.state.messages) }
          | _, _ => none
      | _ => none

/-! ## Decision step (agent.py lines 27 to 34 and 172 to 181) -/

/-- DECISION_SYSTEM_PROMPT (agent.py lines 27 to 34), the raw format
template with its three placeholder fields. -/
def DECISION_SYSTEM_PROMPT : String :=
  "\n    Based on the fundamental analysis: \x7bfundamental_analysis\x7d\n    And technical analysis: \x7btechnical_analysis\x7d\n    \n    Make a buy, sell, or hold decision for \x7bstock_name\x7d.\n    "

/-- Python str.format applied to DECISION_SYSTEM_PROMPT: each of the
three placeholder fields of the template is replaced by the homonymous
keyword argument, the literal text around them kept verbatim. -/
def DECISION_SYSTEM_PROMPT_format
    (fundamental_analysis technical_analysis stock_name : String) : String :=
  "\n    Based on the fundamental analysis: " ++ fundamental_analysis ++
  "\n    And technical analysis: " ++ technical_analysis ++
  "\n    \n    Make a buy, sell, or hold decision for " ++ stock_name ++
  ".\n    "

/-- The decision_prompt built by make_decision (agent.py lines 174 to
178): dict.get substitutes the default when the key is absent. -/
def decision_prompt (state : State) : String :=
  DECISION_SYSTEM_PROMPT_format
    (state.fundamental_analysis.getD "Not available")
    (state.technical_analysis.getD "Not available")
    (state.stock_name.getD "Unknown")

/-- The single message list sent to the reasoning model by make_decision
(agent.py line 180). -/
def decision_model_input (state : State) : List Message :=
  [Message.user (decision_prompt state)]

/-- make_decision (agent.py lines 172 to 181), given the reasoning model
response to decision_model_input state: the raw response content is
stored as the decision, the response is appended to the messages. -/
def make_decision (state : State) (response : Response) : State :=
  { state with
    decision := some response.content
    messages := state.messages ++ [Message.assistant response] }

/-! ## Top-level graph (agent.py lines 183 to 207) -/

/-- Execution of the compiled top-level graph stock_graph (agent.py
lines 183 to 207) against canned responses: the stock name tool loop,
then continue_to_analyses, then make_decision, then END. -/
def stock_graph_run (toolExec : ToolCall → String)
    (nameResponses fResponses tResponses : List Response)
    (decisionResponse : Response) (order : Branch) (state : State) :
    Option State :=
  match stock_name_run toolExec state nameResponses with
  | none => none
  | some nameResult =>
      match continue_to_analyses toolExec fResponses tResponses order
          nameResult.state with
      | none => none
      | some s2 => some (make_decision s2 decisionResponse)

/-! ## String containment infrastructure -/

/-- Whether the first character list starts the second one. -/
def leadsWith : List Char → List Char → Bool
  | [], _ => true
  | _ :: _, [] => false
  | a :: as, b :: bs => a == b && leadsWith as bs

/-- Whether the first character list occurs contiguously inside the
second one. -/
def occursIn (pat : List Char) : List Char → Bool
  | [] => leadsWith pat []
  | c :: rest => leadsWith pat (c :: rest) || occursIn pat rest

/-- Whether pat occurs verbatim as a contiguous substring of s. -/
def strContainsB (s pat : String) : Bool :=
  occursIn pat.data s.data

theorem leadsWith_append (pat tail : List Char) :
    leadsWith pat (pat ++ tail) = true := by
  induction pat with
  | nil => rfl
  | cons c cs ih => simp [leadsWith, ih]

theorem occursIn_append_left (pat pre l : List Char) (h : occursIn pat l = true) :
    occursIn pat (pre ++ l) = true := by
  induction pre with
  | nil => simpa using h
  | cons c cs ih =>
      simp only [List.cons_append, occursIn, List.append_eq, Bool.or_eq_true]
      exact Or.inr ih

theorem occursIn_of_parts (pat pre tail : List Char) :
    occursIn pat (pre ++ (pat ++ tail)) = true := by
  apply occursIn_append_left
  cases pat with
  | nil => cases tail with
    | nil => rfl
    | cons c cs => simp [occursIn, leadsWith]
  | cons c cs =>
      simp only [List.cons_append, occursIn, List.append_eq, Bool.or_eq_true]
      exact Or.inl (leadsWith_append (c :: cs) tail)

/-- Length accounting for the transcript of the non-terminal iterations:
one entry per model response plus one entry per tool result. -/
theorem loopTranscript_length (toolExec : ToolCall → String) (rs : List Response) :
    (loopTranscript toolExec rs).length = rs.length + totalToolCalls rs := by
  induction rs with
  | nil => rfl
  | cons r rs ih =>
      simp only [loopTranscript, toolResults, totalToolCalls, List.length_cons,
        List.length_append, List.length_map, List.map_cons, List.sum_cons] at *
      omega

/-! ## Sample data used by witnesses -/

def sampleExec : ToolCall → String := fun tc => "search result for " ++ tc.args

def sampleToolCall : ToolCall :=
  { name := "perplexity_ask", args := "Reliance Industries fundamentals" }

def sampleToolResponse : Response :=
  { content := "", tool_calls := [sampleToolCall] }

def sampleFreeResponse : Response :=
  { content := "A detailed analysis of the stock.", tool_calls := [] }

def sampleFState : FundamentalAnalysisState :=
  { stock_name := "Reliance Industries Ltd. (NSE:RELIANCE)", messages := [], fundamental_analysis := none }

def sampleTState : TechnicalAnalysisState :=
  { stock_name := "Reliance Industries Ltd. (NSE:RELIANCE)", messages := [], technical_analysis := none }

def sampleTopState : State :=
  { messages := [Message.user "Analyze Reliance Industries"]
    stock_name := none, fundamental_analysis := none
    technical_analysis := none, decision := none }

/-! ## Claims -/

/-- Claim C1: for every tool loop instance (name resolution, fundamental
analysis, technical analysis) and every response sequence whose first N
responses each request at least one tool call while the next response
requests none, the loop performs exactly N tool-execution rounds and
N + 1 model invocations, and its stored message list grows by exactly the
transcript of those iterations: one entry per model response plus one
entry per tool result. -/
theorem claim_C1 :
    (∀ (toolExec : ToolCall → String) (s0 : FundamentalAnalysisState)
       (front : List Response) (last : Response),
       (∀ r ∈ front, r.tool_calls ≠ []) → last.tool_calls = [] →
       ∃ res, fsubgraph_run toolExec s0 (front ++ [last]) = some res ∧
         res.modelCalls = front.length + 1 ∧
         res.toolRounds = front.length ∧
         res.state.messages =
           s0.messages ++ (loopTranscript toolExec front ++ [Message.assistant last]) ∧
         res.state.messages.length =
           s0.messages.length + (front.length + 1) + totalToolCalls front) ∧
    (∀ (toolExec : ToolCall → String) (s0 : TechnicalAnalysisState)
       (front : List Response) (last : Response),
       (∀ r ∈ front, r.tool_calls ≠ []) → last.tool_calls = [] →
       ∃ res, tsubgraph_run toolExec s0 (front ++ [last]) = some res ∧
         res.modelCalls = front.length + 1 ∧
         res.toolRounds = front.length ∧
         res.state.messages =
           s0.messages ++ (loopTranscript toolExec front ++ [Message.assistant last]) ∧
         res.state.messages.length =
           s0.messages.length + (front.length + 1) + totalToolCalls front) ∧
    (∀ (toolExec : ToolCall → String) (s0 : State)
       (front : List Response) (last : Response),
       (∀ r ∈ front, r.tool_calls ≠ []) → last.tool_calls = [] →
       ∃ res, stock_name_run toolExec s0 (front ++ [last]) = some res ∧
         res.modelCalls = front.length + 1 ∧
         res.toolRounds = front.length ∧
         res.state.messages =
           s0.messages ++ (loopTranscript toolExec front ++ [Message.assistant last]) ∧
         res.state.messages.length =
           s0.messages.length + (front.length + 1) + totalToolCalls front) := by
  refine ⟨?_, ?_, ?_⟩
  · intro toolExec s0 front last hf hl
    refine ⟨_, fsubgraph_run_eq toolExec front last [] s0 hf hl, rfl, rfl, rfl, ?_⟩
    simp only [List.length_append, loopTranscript_length, List.length_cons,
      List.length_nil]
    omega
  · intro toolExec s0 front last hf hl
    refine ⟨_, tsubgraph_run_eq toolExec front last [] s0 hf hl, rfl, rfl, rfl, ?_⟩
    simp only [List.length_append, loopTranscript_length, List.length_cons,
      List.length_nil]
    omega
  · intro toolExec s0 front last hf hl
    refine ⟨_, stock_name_run_eq toolExec front last [] s0 hf hl, rfl, rfl, rfl, ?_⟩
    simp only [List.length_append, loopTranscript_length, List.length_cons,
      List.length_nil]
    omega

/-- Claim C1 witness: one tool round then a tool-free response, in the
fundamental loop. -/
theorem claim_C1_witness :
    (∀ r ∈ [sampleToolResponse], r.tool_calls ≠ []) ∧
    sampleFreeResponse.tool_calls = [] ∧
    ∃ res, fsubgraph_run sampleExec sampleFState
        ([sampleToolResponse] ++ [sampleFreeResponse]) = some res ∧
      res.modelCalls = 2 ∧
      res.toolRounds = 1 ∧
      res.state.messages =
        sampleFState.messages ++
          (loopTranscript sampleExec [sampleToolResponse] ++
           [Message.assistant sampleFreeResponse]) ∧
      res.state.messages.length =
        sampleFState.messages.length + 2 + totalToolCalls [sampleToolResponse] :=
  ⟨by decide, rfl,
   claim_C1.1 sampleExec sampleFState [sampleToolResponse] sampleFreeResponse
     (by decide) rfl⟩

/-- Claim C2: for every tool loop instance, if the very first model
response requests no tool calls, the loop terminates after exactly one
model invocation (performing no tool round), its output field equals
that response text content, and that response is the only message
appended to the stored message list. -/
theorem claim_C2 :
    (∀ (toolExec : ToolCall → String) (s0 : FundamentalAnalysisState)
       (first : Response) (rest : List Response),
       first.tool_calls = [] →
       fsubgraph_run toolExec s0 (first :: rest) =
         some ⟨⟨s0.stock_name, s0.messages ++ [Message.assistant first],
                some first.content⟩, 1, 0, 1⟩) ∧
    (∀ (toolExec : ToolCall → String) (s0 : TechnicalAnalysisState)
       (first : Response) (rest : List Response),
       first.tool_calls = [] →
       tsubgraph_run toolExec s0 (first :: rest) =
         some ⟨⟨s0.stock_name, s0.messages ++ [Message.assistant first],
                some first.content⟩, 1, 0, 1⟩) ∧
    (∀ (toolExec : ToolCall → String) (s0 : State)
       (first : Response) (rest : List Response),
       first.tool_calls = [] →
       stock_name_run toolExec s0 (first :: rest) =
         some ⟨{ s0 with
                 messages := s0.messages ++ [Message.assistant first]
                 stock_name := some first.content }, 1, 0, 1⟩) := by
  refine ⟨?_, ?_, ?_⟩
  · intro toolExec s0 first rest h
    simpa using fsubgraph_run_eq toolExec [] first rest s0 (by simp) h
  · intro toolExec s0 first rest h
    simpa using tsubgraph_run_eq toolExec [] first rest s0 (by simp) h
  · intro toolExec s0 first rest h
    simpa using stock_name_run_eq toolExec [] first rest s0 (by simp) h

/-- Claim C2 witness: a first tool-free response in the stock name loop,
with further canned responses left unconsumed. -/
theorem claim_C2_witness :
    sampleFreeResponse.tool_calls = [] ∧
    stock_name_run sampleExec sampleTopState
        (sampleFreeResponse :: [sampleToolResponse]) =
      some ⟨{ sampleTopState with
              messages := sampleTopState.messages ++ [Message.assistant sampleFreeResponse]
              stock_name := some sampleFreeResponse.content }, 1, 0, 1⟩ :=
  ⟨rfl, claim_C2.2.2 sampleExec sampleTopState sampleFreeResponse [sampleToolResponse] rfl⟩

/-- Claim C3: in every run of every tool loop the output field is written
exactly once, on the iteration whose model response requests no tool
calls; a non-terminal node update carries no output key and appends
exactly the model response, after which every requested tool call is
executed, so the run transcript strictly alternates one model response
with the block of all its tool results. -/
theorem claim_C3 :
    (∀ (s : FundamentalAnalysisState) (r : Response), r.tool_calls ≠ [] →
       (get_fundamental_analysis s r).fundamental_analysis = none ∧
       (get_fundamental_analysis s r).messages = [Message.assistant r]) ∧
    (∀ (s : FundamentalAnalysisState) (r : Response), r.tool_calls = [] →
       (get_fundamental_analysis s r).fundamental_analysis = some r.content) ∧
    (∀ (toolExec : ToolCall → String) (s0 : FundamentalAnalysisState)
       (front : List Response) (last : Response) (rest : List Response),
       (∀ r ∈ front, r.tool_calls ≠ []) → last.tool_calls = [] →
       ∃ res, fsubgraph_run toolExec s0 (front ++ last :: rest) = some res ∧
         res.outputWrites = 1 ∧
         res.state.fundamental_analysis = some last.content ∧
         res.state.messages =
           s0.messages ++ (loopTranscript toolExec front ++ [Message.assistant last])) ∧
    (∀ (s : TechnicalAnalysisState) (r : Response), r.tool_calls ≠ [] →
       (get_technical_analysis s r).technical_analysis = none ∧
       (get_technical_analysis s r).messages = [Message.assistant r]) ∧
    (∀ (s : TechnicalAnalysisState) (r : Response), r.tool_calls = [] →
       (get_technical_analysis s r).technical_analysis = some r.content) ∧
    (∀ (toolExec : ToolCall → String) (s0 : TechnicalAnalysisState)
       (front : List Response) (last : Response) (rest : List Response),
       (∀ r ∈ front, r.tool_calls ≠ []) → last.tool_calls = [] →
       ∃ res, tsubgraph_run toolExec s0 (front ++ last :: rest) = some res ∧
         res.outputWrites = 1 ∧
         res.state.technical_analysis = some last.content ∧
         res.state.messages =
           s0.messages ++ (loopTranscript toolExec front ++ [Message.assistant last])) ∧
    (∀ (s : State) (r : Response), r.tool_calls ≠ [] →
       (get_stock_name s r).stock_name = none ∧
       (get_stock_name s r).messages = [Message.assistant r]) ∧
    (∀ (s : State) (r : Response), r.tool_calls = [] →
       (get_stock_name s r).stock_name = some r.content) ∧
    (∀ (toolExec : ToolCall → String) (s0 : State)
       (front : List Response) (last : Response) (rest : List Response),
       (∀ r ∈ front, r.tool_calls ≠ []) → last.tool_calls = [] →
       ∃ res, stock_name_run toolExec s0 (front ++ last :: rest) = some res ∧
         res.outputWrites = 1 ∧
         res.state.stock_name = some last.content ∧
         res.state.messages =
           s0.messages ++ (loopTranscript toolExec front ++ [Message.assistant last])) := by
  refine ⟨?_, ?_, ?_, ?_, ?_, ?_, ?_, ?_, ?_⟩
  · intro s r h; simp [get_fundamental_analysis, h]
  · intro s r h; simp [get_fundamental_analysis, h]
  · intro toolExec s0 front last rest hf hl
    exact ⟨_, fsubgraph_run_eq toolExec front last rest s0 hf hl, rfl, rfl, rfl⟩
  · intro s r h; simp [get_technical_analysis, h]
  · intro s r h; simp [get_technical_analysis, h]
  · intro toolExec s0 front last rest hf hl
    exact ⟨_, tsubgraph_run_eq toolExec front last rest s0 hf hl, rfl, rfl, rfl⟩
  · intro s r h; simp [get_stock_name, h]
  · intro s r h; simp [get_stock_name, h]
  · intro toolExec s0 front last rest hf hl
    exact ⟨_, stock_name_run_eq toolExec front last rest s0 hf hl, rfl, rfl, rfl⟩

/-- Claim C3 witness: in a technical loop run with one tool round the
output field is written exactly once, and a non-terminal update carries
no output key. -/
theorem claim_C3_witness :
    ((get_technical_analysis sampleTState sampleToolResponse).technical_analysis = none ∧
     (get_technical_analysis sampleTState sampleToolResponse).messages =
       [Message.assistant sampleToolResponse]) ∧
    ∃ res, tsubgraph_run sampleExec sampleTState
        ([sampleToolResponse] ++ sampleFreeResponse :: []) = some res ∧
      res.outputWrites = 1 ∧
      res.state.technical_analysis = some sampleFreeResponse.content ∧
      res.state.messages =
        sampleTState.messages ++
          (loopTranscript sampleExec [sampleToolResponse] ++
           [Message.assistant sampleFreeResponse]) :=
  ⟨claim_C3.2.2.2.1 sampleTState sampleToolResponse (by decide),
   claim_C3.2.2.2.2.2.1 sampleExec sampleTState [sampleToolResponse]
     sampleFreeResponse [] (by decide) rfl⟩

/-- Claim C4: for fixed canned responses of the two analysis loops the
Aggregator is deterministic in the completion order of the concurrent
branches, and on success the merged message list it appends is exactly
the fundamental loop messages followed by the technical loop messages,
in that fixed order. -/
theorem claim_C4 (toolExec : ToolCall → String)
    (fResponses tResponses : List Response) (s : State)
    (order1 order2 : Branch) :
    continue_to_analyses toolExec fResponses tResponses order1 s =
      continue_to_analyses toolExec fResponses tResponses order2 s ∧
    (∀ (sn : String) (fres : LoopResult FundamentalAnalysisState)
       (tres : LoopResult TechnicalAnalysisState) (res : State),
       s.stock_name = some sn →
       fsubgraph_run toolExec ⟨sn, [], none⟩ fResponses = some fres →
       tsubgraph_run toolExec ⟨sn, [], none⟩ tResponses = some tres →
       continue_to_analyses toolExec fResponses tResponses order1 s = some res →
       res.messages = s.messages ++ (fres.state.messages ++ tres.state.messages)) := by
  constructor
  · cases order1 <;> cases order2 <;> rfl
  · intro sn fres tres res hsn hf ht hres
    unfold continue_to_analyses at hres
    rw [hsn] at hres
    cases order1 <;>
    · simp only [asyncio_gather] at hres
      rw [hf, ht] at hres
      cases hfa : fres.state.fundamental_analysis with
      | none => simp [hfa] at hres
      | some fa =>
          cases hta : tres.state.technical_analysis with
          | none => simp [hfa, hta] at hres
          | some ta =>
              simp only [hfa, hta, Option.some.injEq] at hres
              rw [← hres]

/-- Claim C4 witness: concrete single-response branches, both completion
orders, and the merged message list. -/
theorem claim_C4_witness :
    (continue_to_analyses sampleExec [sampleFreeResponse] [sampleFreeResponse]
       Branch.fundamental { sampleTopState with stock_name := some "RELIANCE" } =
     continue_to_analyses sampleExec [sampleFreeResponse] [sampleFreeResponse]
       Branch.technical { sampleTopState with stock_name := some "RELIANCE" }) ∧
    ∀ res, continue_to_analyses sampleExec [sampleFreeResponse] [sampleFreeResponse]
        Branch.fundamental { sampleTopState with stock_name := some "RELIANCE" } =
        some res →
      res.messages =
        { sampleTopState with stock_name := some "RELIANCE" }.messages ++
          ([Message.assistant sampleFreeResponse] ++ [Message.assistant sampleFreeResponse]) := by
  have h := claim_C4 sampleExec [sampleFreeResponse] [sampleFreeResponse]
    { sampleTopState with stock_name := some "RELIANCE" }
    Branch.fundamental Branch.technical
  refine ⟨h.1, fun res hres => ?_⟩
  have := h.2 "RELIANCE"
    ⟨⟨"RELIANCE", [Message.assistant sampleFreeResponse],
      some sampleFreeResponse.content⟩, 1, 0, 1⟩
    ⟨⟨"RELIANCE", [Message.assistant sampleFreeResponse],
      some sampleFreeResponse.content⟩, 1, 0, 1⟩
    res rfl (by decide) (by decide) hres
  simpa using this

/-- Claim C9: if either concurrently launched analysis loop fails, the
Aggregator fails as a whole and writes nothing to the top-level state:
no analysis output field and no merged messages. -/
theorem claim_C9 (toolExec : ToolCall → String)
    (fResponses tResponses : List Response) (order : Branch)
    (s : State) (sn : String) (hsn : s.stock_name = some sn)
    (h : fsubgraph_run toolExec ⟨sn, [], none⟩ fResponses = none ∨
         tsubgraph_run toolExec ⟨sn, [], none⟩ tResponses = none) :
    continue_to_analyses toolExec fResponses tResponses order s = none := by
  unfold continue_to_analyses
  rw [hsn]
  cases order <;>
  · simp only [asyncio_gather]
    rcases h with h | h
    · rw [h]
    · rw [h]
      cases fsubgraph_run toolExec ⟨sn, [], none⟩ fResponses <;> rfl

/-- Claim C9 witness: the fundamental branch errors (its model call
raises at once), so the Aggregator produces nothing. -/
theorem claim_C9_witness :
    { sampleTopState with stock_name := some "RELIANCE" }.stock_name = some "RELIANCE" ∧
    fsubgraph_run sampleExec ⟨"RELIANCE", [], none⟩ [] = none ∧
    continue_to_analyses sampleExec [] [sampleFreeResponse] Branch.technical
      { sampleTopState with stock_name := some "RELIANCE" } = none :=
  ⟨rfl, rfl,
   claim_C9 sampleExec [] [sampleFreeResponse] Branch.technical
     { sampleTopState with stock_name := some "RELIANCE" } "RELIANCE" rfl (Or.inl rfl)⟩

/-! ## End-to-end scenario data -/

/-- Seed messages of the end-to-end scenario. -/
def relianceInit : State :=
  { messages := [Message.user "Analyze Reliance Industries"]
    stock_name := none, fundamental_analysis := none
    technical_analysis := none, decision := none }

def relianceNameResponse : Response :=
  { content := "Reliance Industries Ltd. (NSE:RELIANCE)", tool_calls := [] }

def relianceFundamentalResponse : Response :=
  { content := "Strong fundamentals with robust revenue growth.", tool_calls := [] }

def relianceTechnicalResponse : Response :=
  { content := "Bullish trend with strong momentum.", tool_calls := [] }

def relianceDecisionResponse : Response :=
  { content := "buy", tool_calls := [] }

/-- The final decision record the end-to-end scenario should produce. -/
def relianceFinal : State :=
  { messages := [Message.user "Analyze Reliance Industries",
                 Message.assistant relianceNameResponse,
                 Message.assistant relianceFundamentalResponse,
                 Message.assistant relianceTechnicalResponse,
                 Message.assistant relianceDecisionResponse]
    stock_name := some "Reliance Industries Ltd. (NSE:RELIANCE)"
    fundamental_analysis := some "Strong fundamentals with robust revenue growth."
    technical_analysis := some "Bullish trend with strong momentum."
    decision := some "buy" }

/-- Whether a message is a model response. -/
def isModelResponse : Message → Bool
  | Message.assistant _ => true
  | _ => false

/-- Whether a message is a user message. -/
def isUserMessage : Message → Bool
  | Message.user _ => true
  | _ => false

/-- Claim C5: the end-to-end run seeded with the single user message
about Reliance, with canned tool-free name, fundamental and technical
responses and canned decision buy, yields the final record with the
resolved identifier, both analysis strings and decision buy, whose
message history holds exactly 4 model-response messages plus the
original user message, for either completion order of the parallel
branches. -/
theorem claim_C5 (order : Branch) :
    stock_graph_run sampleExec [relianceNameResponse] [relianceFundamentalResponse]
        [relianceTechnicalResponse] relianceDecisionResponse order relianceInit =
      some relianceFinal ∧
    relianceFinal.stock_name = some "Reliance Industries Ltd. (NSE:RELIANCE)" ∧
    relianceFinal.fundamental_analysis =
      some "Strong fundamentals with robust revenue growth." ∧
    relianceFinal.technical_analysis = some "Bullish trend with strong momentum." ∧
    relianceFinal.decision = some "buy" ∧
    relianceFinal.messages.countP isModelResponse = 4 ∧
    relianceFinal.messages.countP isUserMessage = 1 ∧
    relianceFinal.messages.length = 5 := by
  cases order <;> exact ⟨by decide, rfl, rfl, rfl, rfl, by decide, by decide, rfl⟩

/-! ## Decision prompt containment -/

/-- A state reaching the decision step with both analyses and the
resolved Tata Motors name present. -/
def tataState : State :=
  { messages := []
    stock_name := some "Tata Motors Ltd. (NSE:TATAMOTORS)"
    fundamental_analysis := some "Strong revenue growth"
    technical_analysis := some "Bullish breakout"
    decision := none }

/-- Claim C6: with both analyses and the stock name present, the
formatted decision prompt contains all three substituted values verbatim
and no placeholder token remains. -/
theorem claim_C6 :
    strContainsB (decision_prompt tataState) "Strong revenue growth" = true ∧
    strContainsB (decision_prompt tataState) "Bullish breakout" = true ∧
    strContainsB (decision_prompt tataState) "Tata Motors Ltd. (NSE:TATAMOTORS)" = true ∧
    strContainsB (decision_prompt tataState) "\x7bfundamental_analysis\x7d" = false ∧
    strContainsB (decision_prompt tataState) "\x7btechnical_analysis\x7d" = false ∧
    strContainsB (decision_prompt tataState) "\x7bstock_name\x7d" = false := by
  refine ⟨?_, ?_, ?_, ?_, ?_, ?_⟩ <;> decide

/-- Claim C8: the decision step stores the raw text content of the
reasoning model response as the decision value for every response, and
in particular for responses outside the declared buy, sell, hold
enumeration: no validation is performed. -/
theorem claim_C8 :
    (∀ (s : State) (r : Response), (make_decision s r).decision = some r.content) ∧
    (∀ (s : State) (r : Response),
       r.content ≠ "buy" → r.content ≠ "sell" → r.content ≠ "hold" →
       (make_decision s r).decision = some r.content) := by
  exact ⟨fun s r => rfl, fun s r _ _ _ => rfl⟩

/-- Claim C8 witness: a response whose text is none of buy, sell, hold is
stored verbatim as the decision. -/
theorem claim_C8_witness :
    ("I would strongly recommend waiting" ≠ "buy" ∧
     "I would strongly recommend waiting" ≠ "sell" ∧
     "I would strongly recommend waiting" ≠ "hold") ∧
    (make_decision relianceInit
        { content := "I would strongly recommend waiting", tool_calls := [] }).decision =
      some "I would strongly recommend waiting" :=
  ⟨by decide,
   claim_C8.2 relianceInit
     { content := "I would strongly recommend waiting", tool_calls := [] }
     (by decide) (by decide) (by decide)⟩

theorem strContainsB_of_append (a pat b : String) :
    strContainsB (a ++ pat ++ b) pat = true := by
  unfold strContainsB
  have h : (a ++ pat ++ b).data = a.data ++ (pat.data ++ b.data) := by
    simp [String.data_append, List.append_assoc]
  rw [h]
  exact occursIn_of_parts pat.data a.data b.data

/-- The first substituted value occurs verbatim in the formatted
decision prompt. -/
theorem format_contains_fa (fa ta sn : String) :
    strContainsB (DECISION_SYSTEM_PROMPT_format fa ta sn) fa = true := by
  have h : DECISION_SYSTEM_PROMPT_format fa ta sn =
      "\n    Based on the fundamental analysis: " ++ fa ++
      ("\n    And technical analysis: " ++ ta ++
       ("\n    \n    Make a buy, sell, or hold decision for " ++ sn ++ ".\n    ")) := by
    simp [DECISION_SYSTEM_PROMPT_format, String.append_assoc]
  rw [h]
  exact strContainsB_of_append _ fa _

/-- The second substituted value occurs verbatim in the formatted
decision prompt. -/
theorem format_contains_ta (fa ta sn : String) :
    strContainsB (DECISION_SYSTEM_PROMPT_format fa ta sn) ta = true := by
  have h : DECISION_SYSTEM_PROMPT_format fa ta sn =
      ("\n    Based on the fundamental analysis: " ++ fa ++
       "\n    And technical analysis: ") ++ ta ++
      ("\n    \n    Make a buy, sell, or hold decision for " ++ sn ++ ".\n    ") := by
    simp [DECISION_SYSTEM_PROMPT_format, String.append_assoc]
  rw [h]
  exact strContainsB_of_append _ ta _

/-- The third substituted value occurs verbatim in the formatted
decision prompt. -/
theorem format_contains_sn (fa ta sn : String) :
    strContainsB (DECISION_SYSTEM_PROMPT_format fa ta sn) sn = true := by
  have h : DECISION_SYSTEM_PROMPT_format fa ta sn =
      ("\n    Based on the fundamental analysis: " ++ fa ++
       "\n    And technical analysis: " ++ ta ++
       "\n    \n    Make a buy, sell, or hold decision for ") ++ sn ++ ".\n    " := by
    simp [DECISION_SYSTEM_PROMPT_format, String.append_assoc]
  rw [h]
  exact strContainsB_of_append _ sn _

/-- Claim C7: when a field is absent from the state reaching the
decision step, the formatted prompt substitutes the literal default in
its place: Not available for a missing analysis, Unknown for a missing
stock name, the default occurring verbatim in the prompt. -/
theorem claim_C7 (s : State) :
    (s.fundamental_analysis = none →
       decision_prompt s =
         DECISION_SYSTEM_PROMPT_format "Not available"
           (s.technical_analysis.getD "Not available") (s.stock_name.getD "Unknown") ∧
       strContainsB (decision_prompt s) "Not available" = true) ∧
    (s.technical_analysis = none →
       decision_prompt s =
         DECISION_SYSTEM_PROMPT_format (s.fundamental_analysis.getD "Not available")
           "Not available" (s.stock_name.getD "Unknown") ∧
       strContainsB (decision_prompt s) "Not available" = true) ∧
    (s.stock_name = none →
       decision_prompt s =
         DECISION_SYSTEM_PROMPT_format (s.fundamental_analysis.getD "Not available")
           (s.technical_analysis.getD "Not available") "Unknown" ∧
       strContainsB (decision_prompt s) "Unknown" = true) := by
  refine ⟨fun h => ⟨by simp [decision_prompt, h], ?_⟩,
          fun h => ⟨by simp [decision_prompt, h], ?_⟩,
          fun h => ⟨by simp [decision_prompt, h], ?_⟩⟩
  · have he : decision_prompt s =
        DECISION_SYSTEM_PROMPT_format "Not available"
          (s.technical_analysis.getD "Not available") (s.stock_name.getD "Unknown") := by
      simp [decision_prompt, h]
    rw [he]
    exact format_contains_fa _ _ _
  · have he : decision_prompt s =
        DECISION_SYSTEM_PROMPT_format (s.fundamental_analysis.getD "Not available")
          "Not available" (s.stock_name.getD "Unknown") := by
      simp [decision_prompt, h]
    rw [he]
    exact format_contains_ta _ _ _
  · have he : decision_prompt s =
        DECISION_SYSTEM_PROMPT_format (s.fundamental_analysis.getD "Not available")
          (s.technical_analysis.getD "Not available") "Unknown" := by
      simp [decision_prompt, h]
    rw [he]
    exact format_contains_sn _ _ _

/-- Claim C7 witness: a state lacking all three fields substitutes the
defaults, which occur verbatim in the prompt. -/
theorem claim_C7_witness :
    sampleTopState.fundamental_analysis = none ∧
    sampleTopState.stock_name = none ∧
    strContainsB (decision_prompt sampleTopState) "Not available" = true ∧
    strContainsB (decision_prompt sampleTopState) "Unknown" = true :=
  ⟨rfl, rfl, ((claim_C7 sampleTopState).1 rfl).2, ((claim_C7 sampleTopState).2.2 rfl).2⟩

/-- Every successful fundamental subgraph run only appends to the seeded
messages, and every appended entry is a model response or a tool
result. -/
theorem fsubgraph_run_messages (toolExec : ToolCall → String) (rs : List Response) :
    ∀ (s : FundamentalAnalysisState) (res : LoopResult FundamentalAnalysisState),
      fsubgraph_run toolExec s rs = some res →
      ∃ tail, res.state.messages = s.messages ++ tail ∧
        ∀ m ∈ tail, (∃ r, m = Message.assistant r) ∨ (∃ t, m = Message.tool t) := by
  induction rs with
  | nil => intro s res h; simp [fsubgraph_run] at h
  | cons r rs ih =>
      intro s res h
      by_cases hr : r.tool_calls = []
      · simp only [fsubgraph_run, if_pos hr, get_fundamental_analysis, applyFUpdate,
          Option.some.injEq] at h
        refine ⟨[Message.assistant r], ?_, ?_⟩
        · rw [← h]
        · intro m hm
          simp only [List.mem_singleton] at hm
          exact Or.inl ⟨r, hm⟩
      · simp only [fsubgraph_run, if_neg hr] at h
        split at h
        · exact absurd h (by simp)
        · next res' heq =>
            obtain ⟨tail, htail, hmem⟩ := ih _ _ heq
            simp only [Option.some.injEq] at h
            refine ⟨Message.assistant r :: (toolResults toolExec r ++ tail), ?_, ?_⟩
            · rw [← h]
              simp only [applyFUpdate, get_fundamental_analysis, if_neg hr] at htail
              simp only [htail, List.append_assoc, List.cons_append, List.nil_append,
                List.singleton_append]
            · intro m hm
              rcases List.mem_cons.mp hm with hm | hm
              · exact Or.inl ⟨r, hm⟩
              · rcases List.mem_append.mp hm with hm | hm
                · rcases List.mem_map.mp hm with ⟨tc, _, htc⟩
                  exact Or.inr ⟨toolExec tc, htc.symm⟩
                · exact hmem m hm

/-- Every successful technical subgraph run only appends to the seeded
messages, and every appended entry is a model response or a tool
result. -/
theorem tsubgraph_run_messages (toolExec : ToolCall → String) (rs : List Response) :
    ∀ (s : TechnicalAnalysisState) (res : LoopResult TechnicalAnalysisState),
      tsubgraph_run toolExec s rs = some res →
      ∃ tail, res.state.messages = s.messages ++ tail ∧
        ∀ m ∈ tail, (∃ r, m = Message.assistant r) ∨ (∃ t, m = Message.tool t) := by
  induction rs with
  | nil => intro s res h; simp [tsubgraph_run] at h
  | cons r rs ih =>
      intro s res h
      by_cases hr : r.tool_calls = []
      · simp only [tsubgraph_run, if_pos hr, get_technical_analysis, applyTUpdate,
          Option.some.injEq] at h
        refine ⟨[Message.assistant r], ?_, ?_⟩
        · rw [← h]
        · intro m hm
          simp only [List.mem_singleton] at hm
          exact Or.inl ⟨r, hm⟩
      · simp only [tsubgraph_run, if_neg hr] at h
        split at h
        · exact absurd h (by simp)
        · next res' heq =>
            obtain ⟨tail, htail, hmem⟩ := ih _ _ heq
            simp only [Option.some.injEq] at h
            refine ⟨Message.assistant r :: (toolResults toolExec r ++ tail), ?_, ?_⟩
            · rw [← h]
              simp only [applyTUpdate, get_technical_analysis, if_neg hr] at htail
              simp only [htail, List.append_assoc, List.cons_append, List.nil_append,
                List.singleton_append]
            · intro m hm
              rcases List.mem_cons.mp hm with hm | hm
              · exact Or.inl ⟨r, hm⟩
              · rcases List.mem_append.mp hm with hm | hm
                · rcases List.mem_map.mp hm with ⟨tc, _, htc⟩
                  exact Or.inr ⟨toolExec tc, htc.symm⟩
                · exact hmem m hm

/-- Every successful stock name loop run only appends to the seeded
messages, and every appended entry is a model response or a tool
result. -/
theorem stock_name_run_messages (toolExec : ToolCall → String) (rs : List Response) :
    ∀ (s : State) (res : LoopResult State),
      stock_name_run toolExec s rs = some res →
      ∃ tail, res.state.messages = s.messages ++ tail ∧
        ∀ m ∈ tail, (∃ r, m = Message.assistant r) ∨ (∃ t, m = Message.tool t) := by
  induction rs with
  | nil => intro s res h; simp [stock_name_run] at h
  | cons r rs ih =>
      intro s res h
      by_cases hr : r.tool_calls = []
      · simp only [stock_name_run, if_pos hr, get_stock_name, applySUpdate,
          Option.some.injEq] at h
        refine ⟨[Message.assistant r], ?_, ?_⟩
        · rw [← h]
        · intro m hm
          simp only [List.mem_singleton] at hm
          exact Or.inl ⟨r, hm⟩
      · simp only [stock_name_run, if_neg hr] at h
        split at h
        · exact absurd h (by simp)
        · next res' heq =>
            obtain ⟨tail, htail, hmem⟩ := ih _ _ heq
            simp only [Option.some.injEq] at h
            refine ⟨Message.assistant r :: (toolResults toolExec r ++ tail), ?_, ?_⟩
            · rw [← h]
              simp only [applySUpdate, get_stock_name, if_neg hr] at htail
              simp only [htail, List.append_assoc, List.cons_append, List.nil_append,
                List.singleton_append]
            · intro m hm
              rcases List.mem_cons.mp hm with hm | hm
              · exact Or.inl ⟨r, hm⟩
              · rcases List.mem_append.mp hm with hm | hm
                · rcases List.mem_map.mp hm with ⟨tc, _, htc⟩
                  exact Or.inr ⟨toolExec tc, htc.symm⟩
                · exact hmem m hm

/-- The Aggregator depends on the incoming top-level state only through
its stock name: the analysis outputs and the appended message block are
unchanged when the seeded top-level conversation differs. -/
theorem continue_to_analyses_frame (toolExec : ToolCall → String)
    (fResponses tResponses : List Response) (order : Branch)
    (s1 s2 : State) (h : s1.stock_name = s2.stock_name) :
    (continue_to_analyses toolExec fResponses tResponses order s1).map
        (fun st => (st.fundamental_analysis, st.technical_analysis,
                    st.messages.drop s1.messages.length)) =
    (continue_to_analyses toolExec fResponses tResponses order s2).map
        (fun st => (st.fundamental_analysis, st.technical_analysis,
                    st.messages.drop s2.messages.length)) := by
  unfold continue_to_analyses
  rw [← h]
  cases hsn : s1.stock_name with
  | none => rfl
  | some sn =>
      cases order <;>
      · simp only [asyncio_gather]
        cases fsubgraph_run toolExec ⟨sn, [], none⟩ fResponses with
        | none => rfl
        | some fres =>
            cases tsubgraph_run toolExec ⟨sn, [], none⟩ tResponses with
            | none => rfl
            | some tres =>
                cases hfa : fres.state.fundamental_analysis with
                | none => simp [hfa]
                | some fa =>
                    cases hta : tres.state.technical_analysis with
                    | none => simp [hfa, hta]
                    | some ta => simp [hfa, hta, List.drop_left]

/-- Claim C10: on every iteration the system prompt (and, for the two
analysis loops, the contextual user message naming the stock) appears
only in the model invocation input, freshly prepended to the stored
messages; the stored history of every loop extends its seed with model
responses and tool results only; and the Aggregator seeds its
sub-workflows with only the resolved stock name, so neither its outputs
nor its appended message block depend on the top-level conversation. -/
theorem claim_C10 :
    (∀ s : FundamentalAnalysisState,
       fundamental_messages_with_prompt s =
         Message.system FUNDAMENTAL_ANALYSIS_SYSTEM_PROMPT ::
         Message.user ("The stock to analyze is " ++ s.stock_name) :: s.messages) ∧
    (∀ s : TechnicalAnalysisState,
       technical_messages_with_prompt s =
         Message.system TECHNICAL_ANALYSIS_SYSTEM_PROMPT ::
         Message.user ("The stock to analyze is " ++ s.stock_name) :: s.messages) ∧
    (∀ s : State,
       stock_name_messages_with_prompt s =
         Message.system STOCK_NAME_SYSTEM_PROMPT :: s.messages) ∧
    (∀ (toolExec : ToolCall → String) (rs : List Response)
       (s : FundamentalAnalysisState) (res : LoopResult FundamentalAnalysisState),
       fsubgraph_run toolExec s rs = some res →
       ∃ tail, res.state.messages = s.messages ++ tail ∧
         ∀ m ∈ tail, (∃ r, m = Message.assistant r) ∨ (∃ t, m = Message.tool t)) ∧
    (∀ (toolExec : ToolCall → String) (rs : List Response)
       (s : TechnicalAnalysisState) (res : LoopResult TechnicalAnalysisState),
       tsubgraph_run toolExec s rs = some res →
       ∃ tail, res.state.messages = s.messages ++ tail ∧
         ∀ m ∈ tail, (∃ r, m = Message.assistant r) ∨ (∃ t, m = Message.tool t)) ∧
    (∀ (toolExec : ToolCall → String) (rs : List Response)
       (s : State) (res : LoopResult State),
       stock_name_run toolExec s rs = some res →
       ∃ tail, res.state.messages = s.messages ++ tail ∧
         ∀ m ∈ tail, (∃ r, m = Message.assistant r) ∨ (∃ t, m = Message.tool t)) ∧
    (∀ (toolExec : ToolCall → String) (fResponses tResponses : List Response)
       (order : Branch) (s1 s2 : State), s1.stock_name = s2.stock_name →
       (continue_to_analyses toolExec fResponses tResponses order s1).map
           (fun st => (st.fundamental_analysis, st.technical_analysis,
                       st.messages.drop s1.messages.length)) =
       (continue_to_analyses toolExec fResponses tResponses order s2).map
           (fun st => (st.fundamental_analysis, st.technical_analysis,
                       st.messages.drop s2.messages.length))) :=
  ⟨fun _ => rfl, fun _ => rfl, fun _ => rfl,
   fun toolExec rs => fsubgraph_run_messages toolExec rs,
   fun toolExec rs => tsubgraph_run_messages toolExec rs,
   fun toolExec rs => stock_name_run_messages toolExec rs,
   continue_to_analyses_frame⟩

/-- Claim C10 witness: a concrete fundamental run whose appended tail is
one model response, and the Aggregator frame property for two seeds that
differ in their top-level conversation. -/
theorem claim_C10_witness :
    (fsubgraph_run sampleExec sampleFState [sampleFreeResponse] =
       some ⟨⟨sampleFState.stock_name, [Message.assistant sampleFreeResponse],
              some sampleFreeResponse.content⟩, 1, 0, 1⟩ ∧
     ∃ tail,
       (⟨sampleFState.stock_name, [Message.assistant sampleFreeResponse],
         some sampleFreeResponse.content⟩ : FundamentalAnalysisState).messages =
         sampleFState.messages ++ tail ∧
       ∀ m ∈ tail, (∃ r, m = Message.assistant r) ∨ (∃ t, m = Message.tool t)) ∧
    ({ sampleTopState with stock_name := some "RELIANCE" }.stock_name =
       ({ messages := [], stock_name := some "RELIANCE",
          fundamental_analysis := none, technical_analysis := none,
          decision := none } : State).stock_name ∧
     (continue_to_analyses sampleExec [sampleFreeResponse] [sampleFreeResponse]
         Branch.fundamental { sampleTopState with stock_name := some "RELIANCE" }).map
         (fun st => (st.fundamental_analysis, st.technical_analysis,
                     st.messages.drop
                       { sampleTopState with stock_name := some "RELIANCE" }.messages.length)) =
     (continue_to_analyses sampleExec [sampleFreeResponse] [sampleFreeResponse]
         Branch.fundamental
         { messages := [], stock_name := some "RELIANCE",
           fundamental_analysis := none, technical_analysis := none,
           decision := none }).map
         (fun st => (st.fundamental_analysis, st.technical_analysis,
                     st.messages.drop
                       ({ messages := [], stock_name := some "RELIANCE",
                          fundamental_analysis := none, technical_analysis := none,
                          decision := none } : State).messages.length))) :=
  ⟨⟨by decide,
    claim_C10.2.2.2.1 sampleExec [sampleFreeResponse] sampleFState
      ⟨⟨sampleFState.stock_name, [Message.assistant sampleFreeResponse],
        some sampleFreeResponse.content⟩, 1, 0, 1⟩ (by decide)⟩,
   ⟨rfl,
    claim_C10.2.2.2.2.2.2 sampleExec [sampleFreeResponse] [sampleFreeResponse]
      Branch.fundamental { sampleTopState with stock_name := some "RELIANCE" }
      { messages := [], stock_name := some "RELIANCE",
        fundamental_analysis := none, technical_analysis := none,
        decision := none } rfl⟩⟩
